import Mathlib

/-!
Verification of the iac-signalr server against its specification.

The Go sources are embedded shallowly: pure fragments become Lean
functions, the per-connection stateful loops become explicit state
passing (a step function folded over the list of delivered events),
and the group registry becomes an explicit association list.  Parts of
the repository that live in its `signalr/` package (the protocol core:
negotiate handler, hub dispatch, group fan-out) are not among the
sources here; those are modelled from the specification and marked as
such in their doc comments.
-/

set_option autoImplicit false
set_option linter.unusedVariables false

namespace IacSignalr

/-! ## Constant-time comparison

`secureCompare` (server.go:64-67) wraps Go's
`crypto/subtle.ConstantTimeCompare`, which returns 0 when the lengths
differ and otherwise or-accumulates the xor of every byte pair,
yielding 1 exactly when the accumulator is 0.  Bytes are modelled as
the numeric codes of the string's characters. -/

def constantTimeCompare (a b : List Nat) : Nat :=
  if a.length ≠ b.length then 0
  else if (List.zipWith (fun x y => x ^^^ y) a b).foldl (fun acc d => acc ||| d) 0 = 0 then 1
  else 0

def byteList (s : String) : List Nat :=
  s.data.map Char.toNat

/-- secureCompare (server.go:64-67): constant-time equality of two strings. -/
def secureCompare (a b : String) : Bool :=
  constantTimeCompare (byteList a) (byteList b) == 1

theorem nat_or_eq_zero (x y : Nat) : x ||| y = 0 ↔ x = 0 ∧ y = 0 := by
  constructor
  · intro h
    have hb : ∀ i, x.testBit i = false ∧ y.testBit i = false := by
      intro i
      have h2 := congrArg (fun n => Nat.testBit n i) h
      simp only [Nat.testBit_or, Nat.zero_testBit, Bool.or_eq_false_iff] at h2
      exact h2
    refine ⟨Nat.eq_of_testBit_eq ?_, Nat.eq_of_testBit_eq ?_⟩
    · intro i; simp [(hb i).1, Nat.zero_testBit]
    · intro i; simp [(hb i).2, Nat.zero_testBit]
  · rintro ⟨rfl, rfl⟩
    rfl

theorem foldl_or_eq_zero (l : List Nat) (acc : Nat) :
    l.foldl (fun acc d => acc ||| d) acc = 0 ↔ acc = 0 ∧ ∀ x ∈ l, x = 0 := by
  induction l generalizing acc with
  | nil => simp
  | cons y ys ih =>
    simp only [List.foldl_cons, ih, nat_or_eq_zero, List.mem_cons]
    constructor
    · rintro ⟨⟨ha, hy⟩, hall⟩
      exact ⟨ha, fun x hx => hx.elim (fun h => h ▸ hy) (hall x)⟩
    · rintro ⟨ha, hall⟩
      exact ⟨⟨ha, hall y (Or.inl rfl)⟩, fun x hx => hall x (Or.inr hx)⟩

theorem zipWith_xor_zero (a b : List Nat) (hlen : a.length = b.length) :
    (∀ x ∈ List.zipWith (fun x y => x ^^^ y) a b, x = 0) ↔ a = b := by
  induction a generalizing b with
  | nil =>
    cases b with
    | nil => simp
    | cons y ys => simp at hlen
  | cons x xs ih =>
    cases b with
    | nil => simp at hlen
    | cons y ys =>
      simp only [List.length_cons, Nat.succ.injEq] at hlen
      simp only [List.zipWith_cons_cons, List.mem_cons, List.cons.injEq]
      constructor
      · intro h
        have hx : x ^^^ y = 0 := h _ (Or.inl rfl)
        have hxs : xs = ys := (ih ys hlen).mp (fun z hz => h z (Or.inr hz))
        exact ⟨Nat.xor_eq_zero.mp hx, hxs⟩
      · rintro ⟨rfl, rfl⟩
        intro z hz
        rcases hz with h | hz
        · simp [h]
        · exact ((ih xs hlen).mpr rfl) z hz

theorem constantTimeCompare_eq_one (a b : List Nat) :
    constantTimeCompare a b = 1 ↔ a = b := by
  unfold constantTimeCompare
  by_cases hlen : a.length = b.length
  · by_cases hz : (List.zipWith (fun x y => x ^^^ y) a b).foldl (fun acc d => acc ||| d) 0 = 0
    · have hall := (foldl_or_eq_zero _ 0).mp hz
      have hab : a = b := (zipWith_xor_zero a b hlen).mp hall.2
      exact iff_of_true (by rw [if_neg (by simp [hlen]), if_pos hz]) hab
    · have hne : a ≠ b := by
        intro h
        exact hz ((foldl_or_eq_zero _ 0).mpr ⟨rfl, (zipWith_xor_zero a b hlen).mpr h⟩)
      simp [hlen, hz, hne]
  · have hne : a ≠ b := fun h => hlen (h ▸ rfl)
    simp [hlen, hne]

theorem byteList_inj (a b : String) (h : byteList a = byteList b) : a = b := by
  have hdata : a.data = b.data := by
    have : ∀ (l₁ l₂ : List Char), l₁.map Char.toNat = l₂.map Char.toNat → l₁ = l₂ := by
      intro l₁
      induction l₁ with
      | nil => intro l₂ h'; cases l₂ <;> simp_all
      | cons c cs ih =>
        intro l₂ h'
        cases l₂ with
        | nil => simp at h'
        | cons d ds =>
          simp only [List.map_cons, List.cons.injEq] at h'
          have hc : c = d := by
            apply Char.ext
            apply UInt32.eq_of_val_eq
            apply Fin.ext
            simpa [Char.toNat, UInt32.toNat] using h'.1
          exact hc ▸ congrArg (List.cons c) (ih ds h'.2)
    exact this a.data b.data h
  cases a; cases b
  exact congrArg String.mk (by simpa using hdata)

theorem secureCompare_iff (a b : String) : secureCompare a b = true ↔ a = b := by
  unfold secureCompare
  rw [beq_iff_eq, constantTimeCompare_eq_one]
  constructor
  · exact byteList_inj a b
  · intro h; rw [h]

/-! ## Health endpoint

The `/health` handler (server.go:99-124): a non-GET request is answered
`405` before any authorization check; a GET whose `Authorization`
header fails the constant-time comparison against `"apikey " + key` is
answered `401` before `CheckServiceStatus` runs.  The outcome records
which of those steps were reached. -/

structure HealthOutcome where
  status : Nat
  authChecked : Bool
  serviceChecked : Bool
deriving DecidableEq, Repr

/-- The `/health` handler registered in runHTTPServer (server.go:99-124). -/
def healthHandler (apiKey method authHeader : String) : HealthOutcome :=
  if method ≠ "GET" then ⟨405, false, false⟩
  else if secureCompare ("apikey " ++ apiKey) authHeader = false then ⟨401, true, false⟩
  else ⟨200, true, true⟩

/-- C10: a non-GET request to /health is answered 405 Method Not Allowed
without the authorization comparison being performed, and a GET request
whose Authorization header is not exactly `"apikey "` followed by the
configured API key is answered 401 Unauthorized with the service status
check not performed. -/
theorem health_method_and_auth_guards (apiKey method authHeader badAuth : String)
    (hm : method ≠ "GET") (hb : badAuth ≠ "apikey " ++ apiKey) :
    healthHandler apiKey method authHeader = ⟨405, false, false⟩ ∧
    healthHandler apiKey "GET" badAuth = ⟨401, true, false⟩ := by
  constructor
  · simp [healthHandler, hm]
  · have hcmp : secureCompare ("apikey " ++ apiKey) badAuth = false := by
      by_contra h
      have htrue : secureCompare ("apikey " ++ apiKey) badAuth = true := by
        cases hv : secureCompare ("apikey " ++ apiKey) badAuth
        · exact absurd hv h
        · rfl
      exact hb ((secureCompare_iff _ _).mp htrue).symm
    simp [healthHandler, hcmp]

/-- Witness for C10 at concrete inputs: a POST is rejected 405 with no auth
check, and a GET with a wrong key is rejected 401 with no status check. -/
theorem health_method_and_auth_guards_witness :
    healthHandler "secret" "POST" "apikey secret" = ⟨405, false, false⟩ ∧
    healthHandler "secret" "GET" "apikey wrong" = ⟨401, true, false⟩ :=
  health_method_and_auth_guards "secret" "POST" "apikey secret" "apikey wrong"
    (by decide) (by decide)

/-! ## Server construction options

`runHTTPServer` (server.go:69-94) builds the signalr server with fixed
intervals and passes `[]string{clients}` — the configured `clients`
value as a single slice element — to `AllowOriginPatterns`.  `main`
(server.go:162-217) reads the configuration and lets the environment
variables override `Address`, `Clients` and `InsecureSkipVerify`. -/

structure Config where
  address : String
  clients : String
  insecureSkipVerify : Bool
deriving DecidableEq, Repr

/-- main (server.go:179-188): environment overrides applied to the parsed
configuration; an empty variable leaves the configured value, and the
skip-verify override fires only on the exact value `"true"`. -/
def applyEnvOverrides (cfg : Config) (envAddress envClients envInsecure : String) : Config :=
  { address := if envAddress ≠ "" then envAddress else cfg.address
    clients := if envClients ≠ "" then envClients else cfg.clients
    insecureSkipVerify := if envInsecure = "true" then true else cfg.insecureSkipVerify }

structure ServerOptions where
  keepAliveSeconds : Nat
  timeoutSeconds : Nat
  handshakeTimeoutSeconds : Nat
  allowOriginPatterns : List String
  insecureSkipVerify : Bool
deriving DecidableEq, Repr

/-- runHTTPServer (server.go:75-81): the option values passed to
signalr.NewServer, with `AllowOriginPatterns([]string\x7bclients\x7d)`. -/
def runHTTPServerOptions (clients : String) (insecureSkipVerify : Bool) : ServerOptions :=
  { keepAliveSeconds := 15
    timeoutSeconds := 30
    handshakeTimeoutSeconds := 15
    allowOriginPatterns := [clients]
    insecureSkipVerify := insecureSkipVerify }

/-- C7 counterexample: for the example configuration value listing two
comma-separated origins, the pattern list handed to AllowOriginPatterns is
not the list with one element per listed origin — it is the single raw
comma-separated string, and neither origin is its own element. -/
theorem allowOriginPatterns_not_per_origin :
    ((runHTTPServerOptions "http://127.0.0.1:8080,https://127.0.0.1:8080" false).allowOriginPatterns ==
      ["http://127.0.0.1:8080", "https://127.0.0.1:8080"]) = false ∧
    (runHTTPServerOptions "http://127.0.0.1:8080,https://127.0.0.1:8080" false).allowOriginPatterns.contains
      "http://127.0.0.1:8080" = false := by
  exact ⟨by decide, by decide⟩

/-- C7 amended: the pattern list passed to AllowOriginPatterns is always the
one-element list holding the entire configured clients string (after the
environment override), even when that string is comma-separated; it is never
split into per-origin elements. -/
theorem allowOriginPatterns_single_raw_element (cfg : Config)
    (envAddress envClients envInsecure : String) :
    (runHTTPServerOptions (applyEnvOverrides cfg envAddress envClients envInsecure).clients
        (applyEnvOverrides cfg envAddress envClients envInsecure).insecureSkipVerify).allowOriginPatterns =
      [(applyEnvOverrides cfg envAddress envClients envInsecure).clients] ∧
    (runHTTPServerOptions (applyEnvOverrides cfg envAddress envClients envInsecure).clients
        (applyEnvOverrides cfg envAddress envClients envInsecure).insecureSkipVerify).allowOriginPatterns.length = 1 := by
  exact ⟨rfl, rfl⟩

/-! ## Negotiate bearer-token check

The negotiate handler itself lives in this repository's `signalr/`
package, which is not among the sources here; only its caller
(`runHTTPServer`) is.  The check is therefore modelled from the
specification (4.1 step 2) and settled against that model. -/

structure AuthConfig where
  enabled : Bool
  token : String
deriving DecidableEq, Repr

structure NegotiateRequest where
  authorizationHeader : Option String
  accessTokenQuery : Option String
deriving DecidableEq, Repr

/-- Modelled from the spec: the optional bearer check of the negotiate
endpoint (spec 4.1 step 2), whose implementation is in the repository's
`signalr/` package and absent from the sources here.  The request must
carry `Authorization: Bearer <t>` or `?access_token=<t>`; the token is
compared with the constant-time comparison. -/
def negotiateBearerOk (auth : AuthConfig) (req : NegotiateRequest) : Bool :=
  (match req.authorizationHeader with
   | some h => secureCompare h ("Bearer " ++ auth.token)
   | none => false) ||
  (match req.accessTokenQuery with
   | some t => secureCompare t auth.token
   | none => false)

/-- Modelled from the spec: the HTTP status produced by the negotiate
endpoint's authorization step (spec 4.1 step 2): when authorization is
enabled and the bearer check fails, the request is rejected with 401;
otherwise this step imposes nothing. -/
def negotiateAuthStatus (auth : AuthConfig) (req : NegotiateRequest) : Option Nat :=
  if auth.enabled && !negotiateBearerOk auth req then some 401 else none

/-- C3: with authorization enabled, a negotiate request that carries the
configured token neither as `Authorization: Bearer <t>` nor as
`?access_token=<t>` is rejected with HTTP 401; the token comparison is the
constant-time secureCompare (whose agreement with equality is
secureCompare_iff). -/
theorem negotiate_rejects_without_token (auth : AuthConfig) (req : NegotiateRequest)
    (hen : auth.enabled = true)
    (hh : req.authorizationHeader ≠ some ("Bearer " ++ auth.token))
    (hq : req.accessTokenQuery ≠ some auth.token) :
    negotiateAuthStatus auth req = some 401 := by
  have hok : negotiateBearerOk auth req = false := by
    unfold negotiateBearerOk
    rw [Bool.or_eq_false_iff]
    constructor
    · cases hha : req.authorizationHeader with
      | none => rfl
      | some h =>
        cases hcmp : secureCompare h ("Bearer " ++ auth.token) with
        | false => exact hcmp
        | true =>
          exact absurd (hha ▸ congrArg some ((secureCompare_iff _ _).mp hcmp)) hh
    · cases hqa : req.accessTokenQuery with
      | none => rfl
      | some t =>
        cases hcmp : secureCompare t auth.token with
        | false => exact hcmp
        | true =>
          exact absurd (hqa ▸ congrArg some ((secureCompare_iff _ _).mp hcmp)) hq
  simp [negotiateAuthStatus, hen, hok]

/-- Witness for C3: a request with a wrong bearer header and no query token
is rejected with 401. -/
theorem negotiate_rejects_without_token_witness :
    negotiateAuthStatus ⟨true, "tok"⟩ ⟨some "Bearer wrong", none⟩ = some 401 :=
  negotiate_rejects_without_token ⟨true, "tok"⟩ ⟨some "Bearer wrong", none⟩
    rfl (by decide) (by decide)

/-! ## Group registry and the IACMessageBus hub

The hub (signalr.go:28-151) keeps all clients in the single group
`"IAC_Internal_MessageBus"`: `OnConnected` adds the connection id to it,
`OnDisconnected` removes it, and no other hub method touches any group.
The registry itself (`Groups().AddToGroup` / `RemoveFromGroup`) lives in
the repository's `signalr/` package and is modelled from the
specification (4.6): group name to member set, here an association list
of (group, member) pairs without duplicates. -/

def groupname : String := "IAC_Internal_MessageBus"

abbrev Registry := List (String × String)

/-- Modelled from the spec: `Groups().AddToGroup(name, connId)` (4.5, 4.6)
of the `signalr/` package, absent from the sources here — inserts the
membership pair, keeping the member set free of duplicates. -/
def addToGroup (g c : String) (reg : Registry) : Registry :=
  if (g, c) ∈ reg then reg else (g, c) :: reg

/-- Modelled from the spec: `Groups().RemoveFromGroup(name, connId)` (4.5,
4.6) of the `signalr/` package, absent from the sources here — deletes the
membership pair. -/
def removeFromGroup (g c : String) (reg : Registry) : Registry :=
  reg.filter (fun p => p ≠ (g, c))

/-- Membership of a connection id in a group, as a decidable check. -/
def memberOf (c g : String) (reg : Registry) : Bool :=
  decide ((g, c) ∈ reg)

/-- The hub methods of IACMessageBus (signalr.go:35-151), one constructor
per method, carrying the arguments that matter for the registry. -/
inductive HubOp
  | subscribe (topic connectionID : String)
  | send (topic message connectionID : String)
  | sendToBackEnd (topic message connectionID : String)
  | addMessage (message topic sender : String)
  | onConnected (connectionID : String)
  | onDisconnected (connectionID : String)
  | broadcast (message : String)
  | echo (message : String)
  | panicMethod
  | requestAsync (message : String)
  | requestTuple (message : String)
  | dateStream
  | uploadStream
  | abort
deriving DecidableEq, Repr

/-- The registry effect of each hub method: OnConnected (signalr.go:64-68)
adds the id to groupname, OnDisconnected (signalr.go:70-74) removes it, and
no other method of the hub touches the registry. -/
def regEffect (op : HubOp) (reg : Registry) : Registry :=
  match op with
  | .onConnected id => addToGroup groupname id reg
  | .onDisconnected id => removeFromGroup groupname id reg
  | _ => reg

def applyOps (ops : List HubOp) (reg : Registry) : Registry :=
  ops.foldl (fun r op => regEffect op r) reg

theorem addToGroup_group (g c : String) (reg : Registry) (p : String × String)
    (hp : p ∈ addToGroup g c reg) : p ∈ reg ∨ p = (g, c) := by
  unfold addToGroup at hp
  by_cases hmem : (g, c) ∈ reg
  · rw [if_pos hmem] at hp
    exact Or.inl hp
  · rw [if_neg hmem] at hp
    rcases List.mem_cons.mp hp with h | h
    · exact Or.inr h
    · exact Or.inl h

theorem removeFromGroup_sub (g c : String) (reg : Registry) (p : String × String)
    (hp : p ∈ removeFromGroup g c reg) : p ∈ reg ∧ p ≠ (g, c) := by
  unfold removeFromGroup at hp
  have := List.mem_filter.mp hp
  exact ⟨this.1, by simpa using this.2⟩

/-- Every membership pair reachable from the empty registry through the
hub's methods names the internal group: no hub method ever adds a
connection to any other group. -/
theorem applyOps_only_groupname (ops : List HubOp) (reg : Registry)
    (hreg : ∀ p ∈ reg, p.1 = groupname) :
    ∀ p ∈ applyOps ops reg, p.1 = groupname := by
  induction ops generalizing reg with
  | nil => exact hreg
  | cons op rest ih =>
    apply ih
    intro p hp
    cases op with
    | onConnected id =>
      rcases addToGroup_group groupname id reg p hp with h | h
      · exact hreg p h
      · rw [h]
    | onDisconnected id =>
      exact hreg p (removeFromGroup_sub groupname id reg p hp).1
    | subscribe t c => exact hreg p hp
    | send t m c => exact hreg p hp
    | sendToBackEnd t m c => exact hreg p hp
    | addMessage m t s => exact hreg p hp
    | broadcast m => exact hreg p hp
    | echo m => exact hreg p hp
    | panicMethod => exact hreg p hp
    | requestAsync m => exact hreg p hp
    | requestTuple m => exact hreg p hp
    | dateStream => exact hreg p hp
    | uploadStream => exact hreg p hp
    | abort => exact hreg p hp

/-- C5: starting from the empty registry, after any sequence of hub-method
calls followed by OnDisconnected(id), the id is a member of no group: the
membership OnConnected added to the internal group has been removed, and no
reachable hub-method sequence can have put the id in any other group. -/
theorem onDisconnected_leaves_no_group (ops : List HubOp) (id g : String) :
    memberOf id g (applyOps (ops ++ [.onDisconnected id]) []) = false := by
  rw [memberOf, decide_eq_false_iff_not]
  intro hmem
  have happ : applyOps (ops ++ [.onDisconnected id]) ([] : Registry) =
      removeFromGroup groupname id (applyOps ops []) := by
    unfold applyOps
    rw [List.foldl_append]
    rfl
  rw [happ] at hmem
  have hsub := removeFromGroup_sub groupname id (applyOps ops []) (g, id) hmem
  have hg : g = groupname :=
    applyOps_only_groupname ops [] (by intro p hp; cases hp) (g, id) hsub.1
  exact hsub.2 (by rw [hg])

/-! ## Group fan-out of the hub's Send

`IACMessageBus.Send` (signalr.go:39-43) does
`Clients().Group(groupname).Send(topic, message)`.  The fan-out itself
(4.5, 4.6, testable property 7) is in the repository's `signalr/`
package and is modelled from the specification: a snapshot of the
group's members is taken at call time and every member — the caller
included when it is a member — is sent one Invocation frame. -/

inductive Value
  | vStr (s : String)
  | vInt (n : Int)
  | vFloat (q : Rat)
deriving DecidableEq, Repr

inductive OutMsg
  | invocation (target : String) (args : List Value)
  | streamItem (id : String) (item : Value)
  | completion (id : String) (result : Option Value) (error : Option String)
deriving DecidableEq, Repr

/-- The members of a group as recorded by the registry. -/
def membersSnapshot (g : String) (reg : Registry) : List String :=
  (reg.filter (fun p => p.1 == g)).map (fun p => p.2)

/-- Modelled from the spec: `Clients().Group(name).Send(target, args)` of
the `signalr/` package, absent from the sources here — fan-out over the
snapshot of the group's members taken at call time, one fire-and-forget
Invocation frame per member (4.5, 4.6, testable property 7). -/
def groupSendDeliveries (reg : Registry) (g target : String) (args : List Value) :
    List (String × OutMsg) :=
  (membersSnapshot g reg).map (fun c => (c, OutMsg.invocation target args))

/-- IACMessageBus.Send (signalr.go:39-43): sends the message to the fixed
internal group with the topic as the target; the connectionID argument is
only logged. -/
def sendDeliveries (reg : Registry) (topic message connectionID : String) :
    List (String × OutMsg) :=
  groupSendDeliveries reg groupname topic [Value.vStr message]

theorem filter_map_comm {α β : Type} (l : List α) (f : α → β) (p : β → Bool) :
    (l.map f).filter p = (l.filter (fun a => p (f a))).map f := by
  induction l with
  | nil => rfl
  | cons x xs ih =>
    by_cases hx : p (f x)
    · simp [List.filter_cons, hx, ih]
    · simp [List.filter_cons, hx, ih]

theorem nodup_filter_eq_self {l : List String} {a : String}
    (hnd : l.Nodup) (ha : a ∈ l) : l.filter (fun c => c == a) = [a] := by
  induction l with
  | nil => cases ha
  | cons x xs ih =>
    have hx := List.nodup_cons.mp hnd
    rcases List.mem_cons.mp ha with h | h
    · have hfe : xs.filter (fun c => c == a) = [] := by
        rw [List.filter_eq_nil_iff]
        intro c hc
        simp only [beq_iff_eq]
        intro hca
        have hcx : c = x := hca.trans h
        exact hx.1 (by rw [← hcx]; exact hc)
      simp [List.filter_cons, h.symm, hfe]
    · have hxne : x ≠ a := by
        intro hxa
        exact hx.1 (hxa ▸ h)
      have hrec := ih hx.2 h
      simp [List.filter_cons, hxne, hrec]

/-- C4: for every call of the hub method Send by a connected caller, every
connection in the snapshot of the internal group's members at call time —
the caller itself included when it is a member — receives exactly one
Invocation frame whose target is the topic and whose arguments are the
single message. -/
theorem send_fanout_exactly_once (reg : Registry) (topic message connectionID conn : String)
    (hnd : (membersSnapshot groupname reg).Nodup)
    (hmem : conn ∈ membersSnapshot groupname reg) :
    ((sendDeliveries reg topic message connectionID).filter
        (fun d => d.1 == conn)).map (fun d => d.2) =
      [OutMsg.invocation topic [Value.vStr message]] := by
  unfold sendDeliveries groupSendDeliveries
  rw [filter_map_comm]
  simp only []
  rw [nodup_filter_eq_self hnd hmem]
  rfl

/-- Witness for C4: with two members in the internal group, the caller
(a member) receives the Invocation frame exactly once. -/
theorem send_fanout_exactly_once_witness :
    ((sendDeliveries [(groupname, "c1"), (groupname, "c2")] "topicA" "hello" "c1").filter
        (fun d => d.1 == "c1")).map (fun d => d.2) =
      [OutMsg.invocation "topicA" [Value.vStr "hello"]] :=
  send_fanout_exactly_once [(groupname, "c1"), (groupname, "c2")] "topicA" "hello" "c1" "c1"
    (by decide) (by decide)

/-! ## Hub dispatch of the echo target

Method discovery (spec 4.4) canonicalises method names to lowercase, so
the wire target `"echo"` resolves to `IACMessageBus.Echo`
(signalr.go:83-86).  Echo is declared `func (c *IACMessageBus)
Echo(message string)` — it returns nothing; its body sends the message
back to the caller as a fire-and-forget Invocation with target
`"echo"`.  The invocation loop that emits the Completion lives in the
repository's `signalr/` package and is modelled from the specification. -/

inductive ParamKind
  | value
  | channel
deriving DecidableEq, Repr

inductive ResultKind
  | void
  | single
  | tuple
  | channel
deriving DecidableEq, Repr

structure MethodDesc where
  name : String
  paramKinds : List ParamKind
  resultKind : ResultKind
deriving DecidableEq, Repr

/-- The invoker table built from the hub's public methods (signalr.go),
keyed by the lowercased declared name, with parameter kinds and result
kind read off each Go signature; lifecycle methods and Abort are
excluded from dispatch (spec 4.4). -/
def hubMethods : List MethodDesc :=
  [ ⟨"subscribe", [.value, .value], .void⟩,
    ⟨"send", [.value, .value, .value], .void⟩,
    ⟨"sendtobackend", [.value, .value, .value], .void⟩,
    ⟨"addmessage", [.value, .value, .value], .void⟩,
    ⟨"broadcast", [.value], .void⟩,
    ⟨"echo", [.value], .void⟩,
    ⟨"panic", [], .void⟩,
    ⟨"requestasync", [.value], .channel⟩,
    ⟨"requesttuple", [.value], .tuple⟩,
    ⟨"datestream", [], .channel⟩,
    ⟨"uploadstream", [.channel, .value, .channel], .void⟩ ]

/-- ASCII lowercasing of one character, as Go's strings.ToLower acts on
the method names in play (all ASCII). -/
def lowerChar (c : Char) : Char :=
  if c.toNat ≥ 65 && c.toNat ≤ 90 then Char.ofNat (c.toNat + 32) else c

def lowerString (s : String) : String :=
  ⟨s.data.map lowerChar⟩

/-- Modelled from the spec: target resolution (4.4) of the `signalr/`
package, absent from the sources here — the invoker is looked up by the
target lowercased. -/
def findMethod (target : String) : Option MethodDesc :=
  hubMethods.find? (fun d => d.name == lowerString target)

/-- IACMessageBus.Echo (signalr.go:83-86): the body sends one
fire-and-forget Invocation `"echo"` with the message to the caller. -/
def echoCallerSends (message : String) : List OutMsg :=
  [OutMsg.invocation "echo" [Value.vStr message]]

/-- Modelled from the spec: dispatch of an Invocation to a method of void
result kind (4.4) by the `signalr/` package, absent from the sources here —
the body's caller-directed frames are emitted, then one Completion for the
invocation id carrying neither result nor error. -/
def dispatchVoidInvocation (id : String) (callerSends : List OutMsg) : List OutMsg :=
  callerSends ++ [OutMsg.completion id none none]

/-- The frames the caller receives for Invocation\x7bid, target:"echo",
arguments:[message]\x7d. -/
def dispatchEcho (id message : String) : List OutMsg :=
  dispatchVoidInvocation id (echoCallerSends message)

/-- C1 counterexample: for Invocation\x7bid:"1", target:"echo",
arguments:["hi"]\x7d, no Completion carrying id "1" and result "hi" is
among the frames sent to the caller — Echo returns nothing, so its
Completion is result-less. -/
theorem echo_completion_has_no_result :
    (dispatchEcho "1" "hi").contains
      (OutMsg.completion "1" (some (Value.vStr "hi")) none) = false := by
  decide

/-- C1 amended: for a client that has completed the handshake, sending
Invocation\x7bid:"1", target:"echo", arguments:["hi"]\x7d resolves the
target to the void method Echo and yields to that client a fire-and-forget
Invocation\x7btarget:"echo", arguments:["hi"]\x7d followed by a
Completion\x7bid:"1"\x7d with no result and no error. -/
theorem echo_invocation_frames :
    findMethod "echo" = some ⟨"echo", [.value], .void⟩ ∧
    dispatchEcho "1" "hi" =
      [OutMsg.invocation "echo" [Value.vStr "hi"],
       OutMsg.completion "1" none none] := by
  exact ⟨by decide, rfl⟩

/-! ## UploadStream: parameter binding and the select loop

`IACMessageBus.UploadStream` (signalr.go:122-146) has the Go signature
`UploadStream(upload1 <-chan int, factor float64, upload2 <-chan
float64)`: channel parameters in positions 0 and 2 with a plain float in
between.  Its body echoes the factor, then loops over `select` on the
two channels; a successful receive echoes the item and records the
channel open, a receive on a closed channel records it closed and
returns (echoing "Finished") when the other channel is already closed.
The loop is embedded as a step function over the list of delivered
channel events.  Float values that only flow through unchanged are
represented exactly as rationals. -/

inductive Binding
  | fromArg (v : Value)
  | fromStream (sid : String)
deriving DecidableEq, Repr

/-- Modelled from the spec: parameter binding (4.4, design note 9) by the
`signalr/` package, absent from the sources here — the i-th entry of
streamIds is bound to the i-th channel parameter and the invocation
arguments are decoded, in order, only into the non-channel parameters. -/
def bindParams : List ParamKind → List String → List Value → Option (List Binding)
  | [], [], [] => some []
  | .channel :: ps, sid :: sids, args =>
    (bindParams ps sids args).map (fun bs => Binding.fromStream sid :: bs)
  | .value :: ps, sids, a :: args =>
    (bindParams ps sids args).map (fun bs => Binding.fromArg a :: bs)
  | _, _, _ => none

/-- The float64 literal 2.0 of the scenario, exact as a rational. -/
def goFloat2 : Rat := ⟨2, 1, by decide, by decide⟩

/-- The float64 literal 1.5 of the scenario, exact as a rational. -/
def goFloat1p5 : Rat := ⟨3, 2, by decide, by decide⟩

theorem goFloat2_eq : goFloat2 = 2 := by
  have h1 : goFloat2 = Rat.divInt (2 : Int) (1 : Int) := Rat.mk'_eq_divInt
  rw [h1, Rat.divInt_eq_div]
  norm_num

theorem goFloat1p5_eq : goFloat1p5 = 3 / 2 := by
  have h1 : goFloat1p5 = Rat.divInt (3 : Int) (2 : Int) := Rat.mk'_eq_divInt
  rw [h1, Rat.divInt_eq_div]
  norm_num

/-- One delivered event on UploadStream's two upload channels: an item on
or the close of either channel. -/
inductive UpEvent
  | item1 (v : Int)
  | item2 (q : Rat)
  | close1
  | close2
deriving DecidableEq, Repr

/-- The caller-directed echoes UploadStream makes through Echo
(signalr.go:127, 132, 139, 134, 141). -/
inductive UpEcho
  | factorMsg (q : Rat)
  | u1Msg (v : Int)
  | u2Msg (q : Rat)
  | finishedMsg
deriving DecidableEq, Repr

structure UpState where
  ok1 : Bool
  ok2 : Bool
  echoes : List UpEcho
  returned : Bool
deriving DecidableEq, Repr

/-- One iteration of UploadStream's select loop (signalr.go:128-145) at the
delivered event: a received item sets the channel's ok flag and is echoed;
an observed close clears the flag and, when the other flag is already
false, echoes "Finished" and returns.  After the method has returned no
further event is consumed. -/
def uploadStreamStep (s : UpState) (e : UpEvent) : UpState :=
  if s.returned then s
  else
    match e with
    | .item1 v => { s with ok1 := true, echoes := s.echoes ++ [.u1Msg v] }
    | .item2 q => { s with ok2 := true, echoes := s.echoes ++ [.u2Msg q] }
    | .close1 =>
      if s.ok2 then { s with ok1 := false }
      else { s with ok1 := false, echoes := s.echoes ++ [.finishedMsg], returned := true }
    | .close2 =>
      if s.ok1 then { s with ok2 := false }
      else { s with ok2 := false, echoes := s.echoes ++ [.finishedMsg], returned := true }

/-- UploadStream's run (signalr.go:122-146): both flags start true, the
factor is echoed first (signalr.go:123-127), then the loop consumes the
delivered events. -/
def uploadStreamRun (factor : Rat) (es : List UpEvent) : UpState :=
  es.foldl uploadStreamStep ⟨true, true, [UpEcho.factorMsg factor], false⟩

/-- Modelled from the spec: the StreamInvocation of a method that returns
(3, 4.4) yields exactly one Completion, emitted by the `signalr/` package
when the method body has returned; nothing is completed while the body
still runs. -/
def uploadCompletions (id : String) (s : UpState) : List OutMsg :=
  if s.returned then [OutMsg.completion id none none] else []

/-- The events of the scenario: StreamItem\x7bid:"s1", item:1\x7d,
StreamItem\x7bid:"s2", item:1.5\x7d, Completion\x7bid:"s1"\x7d,
Completion\x7bid:"s2"\x7d, delivered in wire order. -/
def scenarioEvents : List UpEvent :=
  [.item1 1, .item2 goFloat1p5, .close1, .close2]

/-- The events each upload channel observes, in order. -/
def channel1View (es : List UpEvent) : List (Option Int) :=
  es.filterMap (fun e =>
    match e with
    | .item1 v => some (some v)
    | .close1 => some none
    | _ => none)

def channel2View (es : List UpEvent) : List (Option Rat) :=
  es.filterMap (fun e =>
    match e with
    | .item2 q => some (some q)
    | .close2 => some none
    | _ => none)

/-- C2: for StreamInvocation\x7bid:"3", target:"upload", arguments:[2.0],
streamIds:["s1","s2"]\x7d followed by the items and closes of the
scenario, the float parameter is bound to 2.0 from the arguments while the
first and second channel parameters are bound to streams s1 and s2 (never
decoded from the arguments, although a non-channel parameter sits between
them); the method observes 1 then close on the first channel and 1.5 then
close on the second, returns, and exactly one Completion\x7bid:"3"\x7d is
sent. -/
theorem uploadStream_scenario :
    bindParams [.channel, .value, .channel] ["s1", "s2"] [Value.vFloat goFloat2] =
      some [Binding.fromStream "s1", Binding.fromArg (Value.vFloat goFloat2),
        Binding.fromStream "s2"] ∧
    channel1View scenarioEvents = [some 1, none] ∧
    channel2View scenarioEvents = [some goFloat1p5, none] ∧
    uploadStreamRun goFloat2 scenarioEvents =
      ⟨false, false,
        [UpEcho.factorMsg goFloat2, UpEcho.u1Msg 1, UpEcho.u2Msg goFloat1p5,
          UpEcho.finishedMsg],
        true⟩ ∧
    uploadCompletions "3" (uploadStreamRun goFloat2 scenarioEvents) =
      [OutMsg.completion "3" none none] := by
  refine ⟨by decide, by decide, by decide, by decide, by decide⟩

/-! ## Termination of UploadStream

A channel delivers items only while open and is closed exactly once, so
a well-formed delivery sequence never carries an item of a channel
after that channel's close; `upWF o1 o2 es` states this for a sequence
delivered while channel 1 is open iff `o1` and channel 2 iff `o2`. -/

def upWF : Bool → Bool → List UpEvent → Bool
  | _, _, [] => true
  | o1, o2, UpEvent.item1 _ :: r => o1 && upWF o1 o2 r
  | o1, o2, UpEvent.item2 _ :: r => o2 && upWF o1 o2 r
  | o1, o2, UpEvent.close1 :: r => o1 && upWF false o2 r
  | o1, o2, UpEvent.close2 :: r => o2 && upWF o1 false r

theorem uploadStreamStep_returned (s : UpState) (e : UpEvent)
    (h : s.returned = true) : (uploadStreamStep s e).returned = true := by
  unfold uploadStreamStep
  rw [if_pos h]
  exact h

theorem uploadStreamRun_from_returned (es : List UpEvent) (s : UpState)
    (h : s.returned = true) : (es.foldl uploadStreamStep s).returned = true := by
  induction es generalizing s with
  | nil => exact h
  | cons e r ih =>
    exact ih (uploadStreamStep s e) (uploadStreamStep_returned s e h)

theorem uploadStream_terminates_aux (es : List UpEvent) (s : UpState)
    (hwf : upWF s.ok1 s.ok2 es = true)
    (hret : s.returned = false)
    (hor : (s.ok1 || s.ok2) = true)
    (hc1 : UpEvent.close1 ∈ es ∨ s.ok1 = false)
    (hc2 : UpEvent.close2 ∈ es ∨ s.ok2 = false) :
    (es.foldl uploadStreamStep s).returned = true := by
  induction es generalizing s with
  | nil =>
    rcases hc1 with h | h1
    · cases h
    rcases hc2 with h | h2
    · cases h
    rw [h1, h2] at hor
    simp at hor
  | cons e r ih =>
    rw [List.foldl_cons]
    cases e with
    | item1 v =>
      rw [upWF] at hwf
      rcases Bool.and_eq_true_iff.mp hwf with ⟨ho1, hwr⟩
      have hstep : uploadStreamStep s (UpEvent.item1 v) =
          { s with ok1 := true, echoes := s.echoes ++ [UpEcho.u1Msg v] } := by
        simp [uploadStreamStep, hret]
      rw [hstep]
      apply ih
      · simpa [ho1] using hwr
      · simp [hret]
      · simp
      · rcases hc1 with h | h
        · rcases List.mem_cons.mp h with h' | h'
          · cases h'
          · exact Or.inl h'
        · rw [ho1] at h; cases h
      · rcases hc2 with h | h
        · rcases List.mem_cons.mp h with h' | h'
          · cases h'
          · exact Or.inl h'
        · exact Or.inr (by simpa using h)
    | item2 q =>
      rw [upWF] at hwf
      rcases Bool.and_eq_true_iff.mp hwf with ⟨ho2, hwr⟩
      have hstep : uploadStreamStep s (UpEvent.item2 q) =
          { s with ok2 := true, echoes := s.echoes ++ [UpEcho.u2Msg q] } := by
        simp [uploadStreamStep, hret]
      rw [hstep]
      apply ih
      · simpa [ho2] using hwr
      · simp [hret]
      · simp
      · rcases hc1 with h | h
        · rcases List.mem_cons.mp h with h' | h'
          · cases h'
          · exact Or.inl h'
        · exact Or.inr (by simpa using h)
      · rcases hc2 with h | h
        · rcases List.mem_cons.mp h with h' | h'
          · cases h'
          · exact Or.inl h'
        · rw [ho2] at h; cases h
    | close1 =>
      rw [upWF] at hwf
      rcases Bool.and_eq_true_iff.mp hwf with ⟨ho1, hwr⟩
      cases hok2 : s.ok2 with
      | true =>
        have hstep : uploadStreamStep s UpEvent.close1 = { s with ok1 := false } := by
          simp [uploadStreamStep, hret, hok2]
        rw [hstep]
        apply ih
        · simpa using hwr
        · simp [hret]
        · simp [hok2]
        · exact Or.inr (by simp)
        · rcases hc2 with h | h
          · rcases List.mem_cons.mp h with h' | h'
            · cases h'
            · exact Or.inl h'
          · rw [hok2] at h; cases h
      | false =>
        have hstep : uploadStreamStep s UpEvent.close1 =
            { s with ok1 := false, echoes := s.echoes ++ [UpEcho.finishedMsg], returned := true } := by
          simp [uploadStreamStep, hret, hok2]
        rw [hstep]
        exact uploadStreamRun_from_returned r _ rfl
    | close2 =>
      rw [upWF] at hwf
      rcases Bool.and_eq_true_iff.mp hwf with ⟨ho2, hwr⟩
      cases hok1 : s.ok1 with
      | true =>
        have hstep : uploadStreamStep s UpEvent.close2 = { s with ok2 := false } := by
          simp [uploadStreamStep, hret, hok1]
        rw [hstep]
        apply ih
        · simpa using hwr
        · simp [hret]
        · simp [hok1]
        · rcases hc1 with h | h
          · rcases List.mem_cons.mp h with h' | h'
            · cases h'
            · exact Or.inl h'
          · rw [hok1] at h; cases h
        · exact Or.inr (by simp)
      | false =>
        have hstep : uploadStreamStep s UpEvent.close2 =
            { s with ok2 := false, echoes := s.echoes ++ [UpEcho.finishedMsg], returned := true } := by
          simp [uploadStreamStep, hret, hok1]
        rw [hstep]
        exact uploadStreamRun_from_returned r _ rfl

/-- C9: for every pair of upload channels that each deliver finitely many
items and are then closed — any well-formed finite interleaving of the two
channels' items and closes containing the close of each channel — the
UploadStream select loop has returned by the end of the delivered
sequence. -/
theorem uploadStream_terminates (factor : Rat) (es : List UpEvent)
    (hwf : upWF true true es = true)
    (hc1 : UpEvent.close1 ∈ es) (hc2 : UpEvent.close2 ∈ es) :
    (uploadStreamRun factor es).returned = true := by
  unfold uploadStreamRun
  exact uploadStream_terminates_aux es
    ⟨true, true, [UpEcho.factorMsg factor], false⟩
    hwf rfl rfl (Or.inl hc1) (Or.inl hc2)

/-- Witness for C9: an interleaving with one item per channel and the
closes in the reverse channel order still terminates. -/
theorem uploadStream_terminates_witness :
    (uploadStreamRun goFloat2
      [UpEvent.item2 goFloat1p5, UpEvent.item1 1, UpEvent.close2,
        UpEvent.close1]).returned = true :=
  uploadStream_terminates goFloat2
    [UpEvent.item2 goFloat1p5, UpEvent.item1 1, UpEvent.close2, UpEvent.close1]
    (by decide) (by decide) (by decide)

/-! ## The legacy websocket client

The client of clientsample keeps a map of response futures keyed by the
invocation identifier.  `routeResponse` delivers an inbound message to
the matching pending future and deletes it, so a later message with the
same identifier finds no future and is dropped.  `endDispatch` closes
every pending future, and `CallHub` turns the value received on its
future into the call's outcome. -/

structure SrvMsg where
  cursor : String
  data : List String
  result : String
  identifier : String
  error : String
deriving DecidableEq, Repr

structure RouteState where
  futures : List String
  delivered : List (String × SrvMsg)
deriving DecidableEq, Repr

/-- Client.routeResponse (part_002:110-119): when the message's identifier
has a registered response future, the message is sent to it, the future is
closed, and the entry is deleted from the map; otherwise nothing happens.
The map is the list of registered identifiers, and a delivery is recorded
as the pair (identifier, message). -/
def routeResponse (st : RouteState) (m : SrvMsg) : RouteState :=
  if m.identifier ∈ st.futures then
    { futures := st.futures.erase m.identifier,
      delivered := st.delivered ++ [(m.identifier, m)] }
  else st

/-- Client.dispatch (part_002:179-209): an inbound message is routed as a
response only when its identifier is non-empty. -/
def dispatchRoute (st : RouteState) (m : SrvMsg) : RouteState :=
  if 0 < m.identifier.length then routeResponse st m else st

/-- The dispatch loop's routing of a whole inbound message sequence,
starting from the registered futures. -/
def routeAll (fs : List String) (ms : List SrvMsg) : RouteState :=
  ms.foldl dispatchRoute ⟨fs, []⟩

theorem dispatchRoute_futures_sub (st : RouteState) (m : SrvMsg) (j : String)
    (hj : j ∈ (dispatchRoute st m).futures) : j ∈ st.futures := by
  unfold dispatchRoute routeResponse at hj
  by_cases hlen : 0 < m.identifier.length
  · rw [if_pos hlen] at hj
    by_cases hmem : m.identifier ∈ st.futures
    · rw [if_pos hmem] at hj
      exact List.mem_of_mem_erase hj
    · rwa [if_neg hmem] at hj
  · rwa [if_neg hlen] at hj

theorem route_pre (ms : List SrvMsg) (st : RouteState) (i : String)
    (hne : ∀ m' ∈ ms, m'.identifier ≠ i) :
    (i ∈ st.futures → i ∈ (ms.foldl dispatchRoute st).futures) ∧
    (st.futures.Nodup → (ms.foldl dispatchRoute st).futures.Nodup) ∧
    (ms.foldl dispatchRoute st).delivered.filter (fun d => d.1 == i) =
      st.delivered.filter (fun d => d.1 == i) := by
  induction ms generalizing st with
  | nil => exact ⟨fun h => h, fun h => h, rfl⟩
  | cons m' rest ih =>
    have hm' : m'.identifier ≠ i := hne m' (List.mem_cons_self m' rest)
    have hrest : ∀ x ∈ rest, x.identifier ≠ i :=
      fun x hx => hne x (List.mem_cons_of_mem m' hx)
    rw [List.foldl_cons]
    have hstep :
        (i ∈ st.futures → i ∈ (dispatchRoute st m').futures) ∧
        (st.futures.Nodup → (dispatchRoute st m').futures.Nodup) ∧
        (dispatchRoute st m').delivered.filter (fun d => d.1 == i) =
          st.delivered.filter (fun d => d.1 == i) := by
      unfold dispatchRoute routeResponse
      by_cases hlen : 0 < m'.identifier.length
      · rw [if_pos hlen]
        by_cases hmem : m'.identifier ∈ st.futures
        · rw [if_pos hmem]
          refine ⟨?_, ?_, ?_⟩
          · intro hi
            exact (List.mem_erase_of_ne (fun h => hm' h.symm)).mpr hi
          · intro hnd
            exact hnd.erase m'.identifier
          · rw [List.filter_append]
            have : ((([(m'.identifier, m')]) : List (String × SrvMsg)).filter
                (fun d => d.1 == i)) = [] := by
              simp [hm']
            rw [this, List.append_nil]
        · rw [if_neg hmem]
          exact ⟨fun h => h, fun h => h, rfl⟩
      · rw [if_neg hlen]
        exact ⟨fun h => h, fun h => h, rfl⟩
    rcases ih (dispatchRoute st m') hrest with ⟨ih1, ih2, ih3⟩
    exact ⟨fun hi => ih1 (hstep.1 hi), fun hnd => ih2 (hstep.2.1 hnd),
      ih3.trans hstep.2.2⟩

theorem route_post (ms : List SrvMsg) (st : RouteState) (i : String)
    (hni : i ∉ st.futures) :
    (ms.foldl dispatchRoute st).delivered.filter (fun d => d.1 == i) =
      st.delivered.filter (fun d => d.1 == i) := by
  induction ms generalizing st with
  | nil => rfl
  | cons m' rest ih =>
    rw [List.foldl_cons]
    have hni' : i ∉ (dispatchRoute st m').futures :=
      fun h => hni (dispatchRoute_futures_sub st m' i h)
    have hstep : (dispatchRoute st m').delivered.filter (fun d => d.1 == i) =
        st.delivered.filter (fun d => d.1 == i) := by
      unfold dispatchRoute routeResponse
      by_cases hlen : 0 < m'.identifier.length
      · rw [if_pos hlen]
        by_cases hmem : m'.identifier ∈ st.futures
        · rw [if_pos hmem]
          have hm'ne : m'.identifier ≠ i := by
            intro h
            exact hni (h ▸ hmem)
          rw [List.filter_append]
          have : ((([(m'.identifier, m')]) : List (String × SrvMsg)).filter
              (fun d => d.1 == i)) = [] := by
            simp [hm'ne]
          rw [this, List.append_nil]
        · rw [if_neg hmem]
      · rw [if_neg hlen]
    exact (ih (dispatchRoute st m') hni').trans hstep

/-- C6: in the client's response routing, the first inbound message whose
(non-empty) identifier is registered is delivered to the matching pending
future and the future is removed, so every later message with the same
identifier is dropped: over the whole inbound sequence exactly that first
message is delivered for the identifier. -/
theorem at_most_one_completion (fs : List String) (pre post : List SrvMsg) (m : SrvMsg)
    (hnd : fs.Nodup) (hm : m.identifier ∈ fs) (hlen : 0 < m.identifier.length)
    (hpre : ∀ m' ∈ pre, m'.identifier ≠ m.identifier) :
    ((routeAll fs (pre ++ m :: post)).delivered.filter
        (fun d => d.1 == m.identifier)).map (fun d => d.2) = [m] := by
  unfold routeAll
  rw [List.foldl_append, List.foldl_cons]
  have hpre' := route_pre pre ⟨fs, []⟩ m.identifier hpre
  rcases hpre' with ⟨h1, h2, h3⟩
  set st1 := pre.foldl dispatchRoute (⟨fs, []⟩ : RouteState) with hst1
  have hi1 : m.identifier ∈ st1.futures := h1 hm
  have hnd1 : st1.futures.Nodup := h2 hnd
  have hdel1 : st1.delivered.filter (fun d => d.1 == m.identifier) = [] := by
    rw [h3]; rfl
  have hstep : dispatchRoute st1 m =
      ⟨st1.futures.erase m.identifier, st1.delivered ++ [(m.identifier, m)]⟩ := by
    unfold dispatchRoute routeResponse
    rw [if_pos hlen, if_pos hi1]
  rw [hstep]
  have hni2 : m.identifier ∉ st1.futures.erase m.identifier := by
    intro h
    exact ((List.Nodup.mem_erase_iff hnd1).mp h).1 rfl
  have hpost := route_post post
    ⟨st1.futures.erase m.identifier, st1.delivered ++ [(m.identifier, m)]⟩
    m.identifier hni2
  rw [hpost]
  simp only [List.filter_append, hdel1]
  simp

/-- Witness for C6: with future "1" registered, of two completions carrying
identifier "1" only the first is delivered. -/
theorem at_most_one_completion_witness :
    ((routeAll ["1"]
        ([] ++ (⟨"", [], "ok", "1", ""⟩ : SrvMsg) ::
          [(⟨"", [], "dup", "1", ""⟩ : SrvMsg)])).delivered.filter
        (fun d => d.1 == "1")).map (fun d => d.2) =
      [(⟨"", [], "ok", "1", ""⟩ : SrvMsg)] :=
  at_most_one_completion ["1"] [] [⟨"", [], "dup", "1", ""⟩] ⟨"", [], "ok", "1", ""⟩
    (by decide) (by decide) (by decide) (by intro m' hm'; cases hm')

/-! ## CallHub outcomes and endDispatch -/

/-- Client.CallHub (part_002:243-252): the outcome computed from what the
response future yields — `none` models the future being closed without a
value (`ok == false`), which returns the error "Call to server returned no
result"; a message with a non-empty Error field returns that error;
otherwise the Result is returned. -/
def callHubOutcome (resp : Option SrvMsg) : Except String String :=
  match resp with
  | none => Except.error "Call to server returned no result"
  | some r => if 0 < r.error.length then Except.error r.error else Except.ok r.result

/-- Client.endDispatch (part_002:155-165): every future still registered is
closed without a value, so a CallHub waiting on it observes `none`; an
identifier with no registered future observes nothing. -/
def endDispatchOutcome (fs : List String) (i : String) : Option (Except String String) :=
  if i ∈ fs then some (callHubOutcome none) else none

/-- C8: when the dispatch loop terminates, every pending invocation future
is closed, so an in-flight CallHub returns the error "Call to server
returned no result" instead of hanging; a CallHub whose reply carries a
non-empty Error field returns that error, and one whose reply carries a
Result (empty Error) returns the result. -/
theorem callHub_resolution (fs : List String) (i : String) (r1 r2 : SrvMsg)
    (hi : i ∈ fs) (he : 0 < r1.error.length) (hok : r2.error.length = 0) :
    endDispatchOutcome fs i = some (Except.error "Call to server returned no result") ∧
    callHubOutcome (some r1) = Except.error r1.error ∧
    callHubOutcome (some r2) = Except.ok r2.result := by
  refine ⟨?_, ?_, ?_⟩
  · unfold endDispatchOutcome callHubOutcome
    rw [if_pos hi]
  · show (if 0 < r1.error.length then Except.error r1.error else Except.ok r1.result) =
      Except.error r1.error
    rw [if_pos he]
  · show (if 0 < r2.error.length then Except.error r2.error else Except.ok r2.result) =
      Except.ok r2.result
    rw [if_neg (by rw [hok]; exact Nat.lt_irrefl 0)]

/-- Witness for C8: a pending future "7" resolves to the cancellation
error at endDispatch; an error reply and a result reply resolve to their
error and result. -/
theorem callHub_resolution_witness :
    endDispatchOutcome ["7"] "7" =
      some (Except.error "Call to server returned no result") ∧
    callHubOutcome (some ⟨"", [], "", "7", "boom"⟩) = Except.error "boom" ∧
    callHubOutcome (some ⟨"", [], "42", "7", ""⟩) = Except.ok "42" :=
  callHub_resolution ["7"] "7" ⟨"", [], "", "7", "boom"⟩ ⟨"", [], "42", "7", ""⟩
    (by decide) (by decide) (by decide)

end IacSignalr
